import Mathlib

/-!
Verification of the `bytes_to_type` conversion primitive.

The repository's single operation is a generated function
`bytes_to_T : &[u8] -> Result<Vec<T>, Error>` for a fixed-width numeric
type `T` of byte width `W = size_of::<T>()`:

  - if `bytes.len() % W != 0` it returns
    `Err(anyhow!("Bytes length is not a multiple of {}", W))`;
  - otherwise it reinterprets the buffer, in native byte order, as
    `bytes.len() / W` consecutive `W`-byte values and returns them in
    buffer order.

We embed the operation shallowly: a byte buffer is a `List Nat` (each
element an 8-bit value), the target type is represented by its byte
width `W : Nat`, and the result is `Except String (List Nat)` where the
error is the formatted message produced by the source.  Native byte
order is modelled as little-endian, matching the platform on which the
repository's own doc-test and unit test (`[1,2,3,4] ↦ [67305985]`)
hold.
-/

/-- Interpret a chunk of bytes as one little-endian value: the first
byte is the least significant.  This models the native-byte-order
reinterpretation `bytes.as_ptr() as *const T` performed by the source on
a little-endian host. -/
def decodeLE (chunk : List Nat) : Nat :=
  chunk.foldr (fun b acc => b + 256 * acc) 0

/-- Split the buffer into consecutive `W`-byte chunks and decode each,
in buffer order.  Models the typed view
`slice::from_raw_parts(bytes.as_ptr() as *const T, bytes.len() / W)`
taken by the source (followed by `.to_vec()`). -/
def decodeChunks (W : Nat) (bytes : List Nat) : List Nat :=
  if h : W = 0 ∨ bytes = [] then []
  else decodeLE (bytes.take W) :: decodeChunks W (bytes.drop W)
termination_by bytes.length
decreasing_by
  push_neg at h
  obtain ⟨hW, hB⟩ := h
  simp only [List.length_drop]
  have hlen : 0 < bytes.length := List.length_pos.mpr hB
  omega

/-- The error message built by the source:
`anyhow!("Bytes length is not a multiple of {}", size_of::<T>())`. -/
def lengthMismatchMsg (W : Nat) : String :=
  "Bytes length is not a multiple of " ++ toString W

/-- The generated conversion function, embedded from `src/lib.rs`
lines 41-56: validate that the length is a multiple of the width, then
reinterpret the buffer as `bytes.len() / W` native-order values. -/
def bytes_to_type (W : Nat) (bytes : List Nat) : Except String (List Nat) :=
  if bytes.length % W ≠ 0 then
    .error (lengthMismatchMsg W)
  else
    .ok (decodeChunks W bytes)

/-- The specialisation `bytes_to_u32` generated by `bytes_to_type!(u32)`
in the repository's tests (`size_of::<u32>() = 4`). -/
def bytes_to_u32 (bytes : List Nat) : Except String (List Nat) :=
  bytes_to_type 4 bytes

theorem decodeChunks_nil (W : Nat) : decodeChunks W [] = [] := by
  rw [decodeChunks]
  simp

theorem decodeChunks_pos (W : Nat) (bytes : List Nat) (hW : W ≠ 0)
    (hB : bytes ≠ []) :
    decodeChunks W bytes =
      decodeLE (bytes.take W) :: decodeChunks W (bytes.drop W) := by
  rw [decodeChunks]
  simp [hW, hB]

theorem drop_length_mod (W : Nat) (B : List Nat) (hmod : B.length % W = 0) :
    (List.drop W B).length % W = 0 := by
  have hdvd : W ∣ B.length := Nat.dvd_of_mod_eq_zero hmod
  have h2 : W ∣ (B.length - W) := Nat.dvd_sub' hdvd (dvd_refl W)
  simp only [List.length_drop]
  exact Nat.mod_eq_zero_of_dvd h2

theorem exists_succ_mul (W : Nat) (B : List Nat) (hB : B ≠ [])
    (hmod : B.length % W = 0) : ∃ k, B.length = W * (k + 1) := by
  obtain ⟨k, hk⟩ := Nat.dvd_of_mod_eq_zero hmod
  have hpos : 0 < B.length := List.length_pos.mpr hB
  have hk1 : 0 < k := by
    by_contra hc
    push_neg at hc
    interval_cases k
    omega
  exact ⟨k - 1, by rw [hk]; congr 1; omega⟩

theorem decodeChunks_length (W : Nat) (hW : W ≠ 0) (B : List Nat)
    (hmod : B.length % W = 0) :
    (decodeChunks W B).length = B.length / W := by
  induction B using decodeChunks.induct W with
  | case1 B h =>
    rcases h with h | h
    · exact absurd h hW
    · subst h
      simp [decodeChunks_nil]
  | case2 B h ih =>
    push_neg at h
    obtain ⟨-, hB⟩ := h
    have hWpos : 0 < W := Nat.pos_of_ne_zero hW
    have hmod2 : (List.drop W B).length % W = 0 := drop_length_mod W B hmod
    rw [decodeChunks_pos W B hW hB, List.length_cons, ih hmod2]
    simp only [List.length_drop]
    obtain ⟨k, hk⟩ := exists_succ_mul W B hB hmod
    rw [hk, Nat.mul_succ]
    rw [show W * k + W - W = W * k by omega]
    rw [Nat.mul_div_cancel_left _ hWpos]
    rw [show W * k + W = W * (k + 1) by ring, Nat.mul_div_cancel_left _ hWpos]

theorem decodeChunks_getElem (W : Nat) (hW : W ≠ 0) (B : List Nat)
    (hmod : B.length % W = 0) (i : Nat) (hi : i < B.length / W) :
    (decodeChunks W B)[i]? = some (decodeLE ((B.drop (i * W)).take W)) := by
  induction B using decodeChunks.induct W generalizing i with
  | case1 B h =>
    rcases h with h | h
    · exact absurd h hW
    · subst h
      simp at hi
  | case2 B h ih =>
    push_neg at h
    obtain ⟨-, hB⟩ := h
    have hWpos : 0 < W := Nat.pos_of_ne_zero hW
    have hmod2 : (List.drop W B).length % W = 0 := drop_length_mod W B hmod
    rw [decodeChunks_pos W B hW hB]
    cases i with
    | zero => simp
    | succ j =>
      simp only [List.getElem?_cons_succ]
      obtain ⟨k, hk⟩ := exists_succ_mul W B hB hmod
      have hkdiv : B.length / W = k + 1 := by
        rw [hk, Nat.mul_div_cancel_left _ hWpos]
      have hdroplen : (List.drop W B).length = W * k := by
        simp only [List.length_drop]
        rw [hk, Nat.mul_succ]
        omega
      have hi2 : j < (List.drop W B).length / W := by
        rw [hdroplen, Nat.mul_div_cancel_left _ hWpos]
        rw [hkdiv] at hi
        omega
      rw [ih hmod2 j hi2]
      congr 1
      rw [List.drop_drop]
      congr 2
      ring

theorem decodeChunks_append (W : Nat) (hW : W ≠ 0) (B1 B2 : List Nat)
    (hmod : B1.length % W = 0) :
    decodeChunks W (B1 ++ B2) = decodeChunks W B1 ++ decodeChunks W B2 := by
  induction B1 using decodeChunks.induct W with
  | case1 B1 h =>
    rcases h with h | h
    · exact absurd h hW
    · subst h
      simp [decodeChunks_nil]
  | case2 B1 h ih =>
    push_neg at h
    obtain ⟨-, hB1⟩ := h
    have hWle : W ≤ B1.length := by
      have hpos : 0 < B1.length := List.length_pos.mpr hB1
      rcases Nat.lt_or_ge B1.length W with hlt | hge
      · rw [Nat.mod_eq_of_lt hlt] at hmod
        omega
      · exact hge
    have hne : B1 ++ B2 ≠ [] := by simp [hB1]
    have hmod2 : (List.drop W B1).length % W = 0 := drop_length_mod W B1 hmod
    rw [decodeChunks_pos W (B1 ++ B2) hW hne, decodeChunks_pos W B1 hW hB1]
    rw [List.take_append_of_le_length hWle, List.drop_append_of_le_length hWle]
    rw [ih hmod2]
    simp

theorem decodeChunks_one (B : List Nat) : decodeChunks 1 B = B := by
  induction B with
  | nil => exact decodeChunks_nil 1
  | cons b bs ih =>
    rw [decodeChunks_pos 1 (b :: bs) one_ne_zero (by simp)]
    simp [decodeLE, ih]

/-- Claim C1: for every buffer `B` and width `W`, if `B.length % W = 0`
then the conversion succeeds and the result has length `B.length / W`,
so `B.length = result.length * W`. -/
theorem bytes_to_type_length (W : Nat) (B : List Nat) (hW : 0 < W)
    (hmod : B.length % W = 0) :
    ∃ r, bytes_to_type W B = .ok r ∧ r.length = B.length / W ∧
      B.length = r.length * W := by
  have hW' : W ≠ 0 := Nat.pos_iff_ne_zero.mp hW
  refine ⟨decodeChunks W B, ?_, ?_, ?_⟩
  · simp [bytes_to_type, hmod]
  · exact decodeChunks_length W hW' B hmod
  · rw [decodeChunks_length W hW' B hmod]
    exact (Nat.div_mul_cancel (Nat.dvd_of_mod_eq_zero hmod)).symm

theorem bytes_to_type_length_witness :
    ∃ r, bytes_to_type 4 [1, 2, 3, 4, 5, 6, 7, 8] = .ok r ∧
      r.length = ([1, 2, 3, 4, 5, 6, 7, 8] : List Nat).length / 4 ∧
      ([1, 2, 3, 4, 5, 6, 7, 8] : List Nat).length = r.length * 4 :=
  bytes_to_type_length 4 [1, 2, 3, 4, 5, 6, 7, 8] (by decide) (by decide)

/-- Claim C2: for every buffer `B` and width `W`, if `B.length % W ≠ 0`
then the conversion fails with the length-mismatch error and produces no
output value. -/
theorem bytes_to_type_reject (W : Nat) (B : List Nat)
    (hmod : B.length % W ≠ 0) :
    bytes_to_type W B = .error (lengthMismatchMsg W) ∧
      ∀ r, bytes_to_type W B ≠ .ok r := by
  have h : bytes_to_type W B = .error (lengthMismatchMsg W) := by
    simp [bytes_to_type, hmod]
  exact ⟨h, fun r hr => by rw [h] at hr; exact Except.noConfusion hr⟩

theorem bytes_to_type_reject_witness :
    bytes_to_type 4 [1, 2, 3] = .error (lengthMismatchMsg 4) ∧
      ∀ r, bytes_to_type 4 [1, 2, 3] ≠ .ok r :=
  bytes_to_type_reject 4 [1, 2, 3] (by decide)

/-- Claim C3: on every successful call, the `i`-th output element (for
`i < B.length / W`) is the little-endian (native-order) interpretation
of exactly the bytes at positions `[i*W, (i+1)*W)` of the buffer;
output order equals buffer order. -/
theorem bytes_to_type_getElem (W : Nat) (B r : List Nat) (i : Nat)
    (hW : 0 < W) (hok : bytes_to_type W B = .ok r)
    (hi : i < B.length / W) :
    r[i]? = some (decodeLE ((B.drop (i * W)).take W)) := by
  have hW' : W ≠ 0 := Nat.pos_iff_ne_zero.mp hW
  by_cases hmod : B.length % W = 0
  · have hr : decodeChunks W B = r := by
      simp [bytes_to_type, hmod] at hok
      exact hok
    rw [← hr]
    exact decodeChunks_getElem W hW' B hmod i hi
  · simp [bytes_to_type, hmod] at hok

theorem bytes_to_type_getElem_witness :
    ([67305985, 134678021] : List Nat)[1]? =
      some (decodeLE ((([1, 2, 3, 4, 5, 6, 7, 8] : List Nat).drop (1 * 4)).take 4)) :=
  bytes_to_type_getElem 4 [1, 2, 3, 4, 5, 6, 7, 8] [67305985, 134678021] 1
    (by decide) (by simp [bytes_to_type, decodeChunks, decodeLE]) (by decide)

/-- Claim C4, counterexample: the error produced by the source carries
only the width, not the offending buffer length — two buffers of
different lengths (3 and 5) yield literally the same error value, whose
message mentions only the width 4. -/
theorem bytes_to_type_error_payload_cex :
    bytes_to_type 4 [1, 2, 3] = bytes_to_type 4 [1, 2, 3, 4, 5] ∧
      bytes_to_type 4 [1, 2, 3] =
        .error "Bytes length is not a multiple of 4" := by
  constructor
  · simp [bytes_to_type]
  · simp [bytes_to_type]
    rfl

/-- Claim C4, amended: whenever the conversion fails, the error carries
the required width `W` as diagnostic payload (in its message), but not
the offending buffer length — the error value depends only on `W`. -/
theorem bytes_to_type_error_only_width (W : Nat) (B1 B2 : List Nat)
    (h1 : B1.length % W ≠ 0) (h2 : B2.length % W ≠ 0) :
    bytes_to_type W B1 = .error (lengthMismatchMsg W) ∧
      bytes_to_type W B1 = bytes_to_type W B2 := by
  constructor
  · simp [bytes_to_type, h1]
  · simp [bytes_to_type, h1, h2]

theorem bytes_to_type_error_only_width_witness :
    bytes_to_type 4 [1, 2, 3] = .error (lengthMismatchMsg 4) ∧
      bytes_to_type 4 [1, 2, 3] = bytes_to_type 4 [1, 2, 3, 4, 5] :=
  bytes_to_type_error_only_width 4 [1, 2, 3] [1, 2, 3, 4, 5]
    (by decide) (by decide)

/-- Claim C5: converting the buffer `[1,2,3,4]` to `u32` (width 4,
little-endian) succeeds and returns exactly `[67305985]` = `0x04030201`. -/
theorem bytes_to_u32_concrete :
    bytes_to_u32 [1, 2, 3, 4] = .ok [67305985] := by
  simp [bytes_to_u32, bytes_to_type, decodeChunks, decodeLE]

/-- Claim C6: converting the empty buffer succeeds for every width `W`
and returns the empty sequence, since `0 % W = 0` for every `W`. -/
theorem bytes_to_type_empty (W : Nat) : bytes_to_type W [] = .ok [] := by
  simp [bytes_to_type, decodeChunks_nil]

/-- Claim C7: the conversion is deterministic — two calls with equal
input buffers and the same width produce equal results.  The embedding
is a pure function of the width and the buffer alone, mirroring that the
source reads only its borrowed input and touches no global state. -/
theorem bytes_to_type_deterministic (W : Nat) (B1 B2 : List Nat)
    (h : B1 = B2) : bytes_to_type W B1 = bytes_to_type W B2 := by
  rw [h]

theorem bytes_to_type_deterministic_witness :
    bytes_to_type 4 [1, 2, 3, 4] = bytes_to_type 4 [1, 2, 3, 4] :=
  bytes_to_type_deterministic 4 [1, 2, 3, 4] [1, 2, 3, 4] rfl

/-- Claim C8: for the width-1 types (`u8`/`i8`) the conversion never
errors — every length is a multiple of 1 — and for `u8` the result is
the input buffer itself. -/
theorem bytes_to_type_width_one (B : List Nat) :
    bytes_to_type 1 B = .ok B := by
  simp [bytes_to_type, decodeChunks_one, Nat.mod_one]

/-- Claim C9: the conversion is total over its result type — every
input yields either the `Ok` of the decoded chunks or the
length-mismatch error, decided exactly by `B.length % W = 0`. -/
theorem bytes_to_type_total (W : Nat) (B : List Nat) :
    (B.length % W = 0 ∧ bytes_to_type W B = .ok (decodeChunks W B)) ∨
      (B.length % W ≠ 0 ∧
        bytes_to_type W B = .error (lengthMismatchMsg W)) := by
  by_cases h : B.length % W = 0
  · refine Or.inl ⟨h, ?_⟩
    unfold bytes_to_type
    rw [if_neg (not_not_intro h)]
  · refine Or.inr ⟨h, ?_⟩
    unfold bytes_to_type
    rw [if_pos h]

/-- Claim C10: decoding is a concatenation homomorphism — for buffers
`B1` and `B2` whose lengths are multiples of `W`, converting `B1 ++ B2`
succeeds and equals the concatenation of the two individual results. -/
theorem bytes_to_type_append (W : Nat) (B1 B2 : List Nat) (hW : 0 < W)
    (h1 : B1.length % W = 0) (h2 : B2.length % W = 0) :
    ∃ r1 r2, bytes_to_type W B1 = .ok r1 ∧ bytes_to_type W B2 = .ok r2 ∧
      bytes_to_type W (B1 ++ B2) = .ok (r1 ++ r2) := by
  have hW' : W ≠ 0 := Nat.pos_iff_ne_zero.mp hW
  have hmod : (B1 ++ B2).length % W = 0 := by
    rw [List.length_append, Nat.add_mod, h1, h2]
    simp
  refine ⟨decodeChunks W B1, decodeChunks W B2, ?_, ?_, ?_⟩
  · simp [bytes_to_type, h1]
  · simp [bytes_to_type, h2]
  · unfold bytes_to_type
    rw [if_neg (not_not_intro hmod), decodeChunks_append W hW' B1 B2 h1]

theorem bytes_to_type_append_witness :
    ∃ r1 r2, bytes_to_type 4 [1, 2, 3, 4] = .ok r1 ∧
      bytes_to_type 4 [5, 6, 7, 8] = .ok r2 ∧
      bytes_to_type 4 ([1, 2, 3, 4] ++ [5, 6, 7, 8]) = .ok (r1 ++ r2) :=
  bytes_to_type_append 4 [1, 2, 3, 4] [5, 6, 7, 8] (by decide) (by decide)
    (by decide)
